import Mathlib

/-!
Verification development for the Defender subsystem of the sftpgo fork
(`mever/sftpgo`, package `common`): host reputation scoring, banning,
capacity-bounded eviction and safe/block host lists.

The Go implementation file `common/defender.go` is not part of the source
snapshot; only its test file `common/defender_test.go` and the document
`docs/defender.md` are.  Every definition below that embeds defender code is
therefore modelled from the specification, adjusted only where the
repository's own test file forces a particular behavior (those places are
called out in the doc comments).  Go maps are modelled as association lists,
`time.Time` values as integer minutes, and Go `int` as `Int`.
-/

namespace Defender

/-! ### Association-list model of Go maps -/

/-- Lookup in an association list, the model of a Go `map[string]V` read. -/
def lookupKey {β : Type} (m : List (String × β)) (k : String) : Option β :=
  match m with
  | [] => none
  | p :: rest => if p.1 = k then some p.2 else lookupKey rest k

/-- Removal of a key, the model of Go `delete(m, k)`. -/
def removeKey {β : Type} (m : List (String × β)) (k : String) : List (String × β) :=
  match m with
  | [] => []
  | p :: rest => if p.1 = k then removeKey rest k else p :: removeKey rest k

/-- Store a key/value pair, the model of Go `m[k] = v`. -/
def setKey {β : Type} (m : List (String × β)) (k : String) (v : β) : List (String × β) :=
  removeKey m k ++ [(k, v)]

/-- Key membership, the model of Go `_, ok := m[k]` tested for `ok`. -/
def hasKey {β : Type} (m : List (String × β)) (k : String) : Prop :=
  ∃ p ∈ m, p.1 = k

instance {β : Type} (m : List (String × β)) (k : String) : Decidable (hasKey m k) :=
  List.decidableBEx _ m

/-- Comparison of list elements through an integer key, used to model the
`sort.Sort` calls of the eviction passes. -/
def keyLE {α : Type} (f : α → Int) (a b : α) : Prop := f a ≤ f b

instance {α : Type} (f : α → Int) : DecidableRel (keyLE f) :=
  fun a b => inferInstanceAs (Decidable (f a ≤ f b))

instance {α : Type} (f : α → Int) : IsTotal α (keyLE f) :=
  ⟨fun a b => le_total (f a) (f b)⟩

instance {α : Type} (f : α → Int) : IsTrans α (keyLE f) :=
  ⟨fun _ _ _ h h' => le_trans h h'⟩

/-! ### IPv4 address and CIDR parsing -/

/-- Split a character list at every occurrence of the separator. -/
def splitOnChar (c : Char) (l : List Char) : List (List Char) :=
  match l with
  | [] => [[]]
  | x :: xs =>
    let r := splitOnChar c xs
    if x = c then [] :: r
    else
      match r with
      | [] => [[x]]
      | y :: ys => (x :: y) :: ys

/-- Numeric value of a non-empty all-digit character list. -/
def digitsVal (l : List Char) : Option Nat :=
  if l ≠ [] ∧ l.all (·.isDigit) then
    some (l.foldl (fun a c => a * 10 + (c.toNat - 48)) 0)
  else none

/-- One dotted-quad component: at most three digits, value at most 255. -/
def parseOctet (l : List Char) : Option Nat :=
  match digitsVal l with
  | some v => if l.length ≤ 3 ∧ v ≤ 255 then some v else none
  | none => none

/-- Modelled from the spec: the address-validity test performed by the missing
`common/defender.go` through Go's `net.ParseIP`.  The model restricts the
address universe to IPv4 dotted-quad literals and returns the address as a
32-bit number; IPv6 literals are outside the model.  `none` is a malformed
address. -/
def parseIP (s : String) : Option Nat :=
  match (splitOnChar '.' s.toList).map parseOctet with
  | [some a, some b, some c, some d] => some (((a * 256 + b) * 256 + c) * 256 + d)
  | _ => none

/-- A CIDR network: the masked base address and the prefix length. -/
structure Cidr where
  base : Nat
  maskLen : Nat
  deriving DecidableEq, Repr

/-- Modelled from the spec: the network-validity test performed by the missing
`common/defender.go` through Go's `net.ParseCIDR`, restricted to IPv4.
The base address is masked to the prefix, as `net.ParseCIDR` does. -/
def parseCIDR (s : String) : Option Cidr :=
  match splitOnChar '/' s.toList with
  | [ipPart, lenPart] =>
    match parseIP ⟨ipPart⟩, digitsVal lenPart with
    | some ip, some len =>
      if len ≤ 32 then
        some ⟨ip / 2 ^ (32 - len) * 2 ^ (32 - len), len⟩
      else none
    | _, _ => none
  | _ => none

/-- Containment of an address in a CIDR network: equality of the prefix bits. -/
def cidrContains (c : Cidr) (ip : Nat) : Bool :=
  ip / 2 ^ (32 - c.maskLen) == c.base / 2 ^ (32 - c.maskLen)

/-! ### Host lists -/

/-- The JSON shape of a safe/block list file, after decoding: the declared
address and network strings (source: `HostListFile` in `common`, visible in
`src/common/defender_test.go`). -/
structure HostListFile where
  IPAddresses : List String
  CIDRNetworks : List String
  deriving DecidableEq, Repr

/-- An in-memory host list: exact address strings plus CIDR ranges (source:
`HostList` with its `IPAddresses` map and `Ranges` trie, visible in
`src/common/defender_test.go`). -/
structure HostList where
  IPAddresses : List String
  Ranges : List Cidr
  deriving DecidableEq, Repr

/-- Modelled from the spec: `isListed` of the missing `common/defender.go`.
The exact-address map is consulted on the raw string first; then the string
is parsed and, when valid, looked up in the CIDR ranges; a malformed address
is treated as not listed. -/
def isListed (h : HostList) (ip : String) : Bool :=
  h.IPAddresses.contains ip ||
    match parseIP ip with
    | some addr => h.Ranges.any (fun c => cidrContains c addr)
    | none => false

/-- Modelled from the spec: the post-decode construction stage of the missing
`loadHostListFromFile` in `common/defender.go` (the file I/O, size check and
JSON decoding stages are outside the model).  Invalid addresses and networks
are dropped; a file whose declared lists are both empty yields `none`.  The
test `TestLoadHostListFromFile` forces the `none`-versus-empty decision to be
made on the declared lists, before filtering. -/
def loadHostList (f : HostListFile) : Option HostList :=
  if 0 < f.CIDRNetworks.length ∨ 0 < f.IPAddresses.length then
    some { IPAddresses := f.IPAddresses.filter (fun ip => (parseIP ip).isSome),
           Ranges := f.CIDRNetworks.filterMap parseCIDR }
  else none

/-! ### Defender data model -/

/-- The host event kinds (source: the `HostEvent` constants used throughout
`src/common/defender_test.go`). -/
inductive HostEvent where
  | loginFailed
  | userNotFound
  | limitExceeded
  | noLoginTried
  deriving DecidableEq, Repr

/-- One recorded event: its timestamp (minutes) and its weight (source: the
`hostEvent` struct with fields `dateTime` and `score`, visible in
`src/common/defender_test.go`). -/
structure hostEvent where
  dateTime : Int
  score : Int
  deriving DecidableEq, Repr

/-- The per-address record of a tracked host (source: the `hostScore` struct
with fields `TotalScore` and `Events`, visible in
`src/common/defender_test.go`). -/
structure hostScore where
  TotalScore : Int
  Events : List hostEvent
  deriving DecidableEq, Repr

/-- The defender configuration (source: the `DefenderConfig` literals of
`src/common/defender_test.go`).  Durations are minutes. -/
structure DefenderConfig where
  Enabled : Bool
  BanTime : Int
  BanTimeIncrement : Int
  Threshold : Int
  ScoreInvalid : Int
  ScoreValid : Int
  ScoreLimitExceeded : Int
  ObservationTime : Int
  EntriesSoftLimit : Int
  EntriesHardLimit : Int
  deriving DecidableEq, Repr

/-- The in-memory defender state (source: the `memoryDefender` struct with
fields `config`, `hosts`, `banned`, and the safe/block lists, visible in
`src/common/defender_test.go`).  The two Go maps are association lists. -/
structure memoryDefender where
  config : DefenderConfig
  hosts : List (String × hostScore)
  banned : List (String × Int)
  safeList : Option HostList
  blockList : Option HostList
  deriving DecidableEq, Repr

/-- Modelled from the spec: `validate` of `DefenderConfig` in the missing
`common/defender.go`.  `none` means no error.  When the defender is disabled
no constraint is checked; otherwise each score weight must be below the
threshold, the durations positive, and the hard limit above the positive
soft limit, exactly the failures exercised by `TestDefenderConfig`. -/
def validate (c : DefenderConfig) : Option String :=
  if c.Enabled = false then none
  else if c.Threshold ≤ c.ScoreInvalid then some "score_invalid must be lesser than threshold"
  else if c.Threshold ≤ c.ScoreLimitExceeded then some "score_limit_exceeded must be lesser than threshold"
  else if c.Threshold ≤ c.ScoreValid then some "score_valid must be lesser than threshold"
  else if c.BanTime ≤ 0 then some "ban_time must be greater than 0"
  else if c.BanTimeIncrement ≤ 0 then some "ban_time_increment must be greater than 0"
  else if c.ObservationTime ≤ 0 then some "observation_time must be greater than 0"
  else if c.EntriesSoftLimit ≤ 0 then some "entries_soft_limit must be greater than 0"
  else if c.EntriesHardLimit ≤ c.EntriesSoftLimit then some "entries_hard_limit must be greater than entries_soft_limit"
  else none

/-- Modelled from the spec: the per-kind score weights of the missing
`common/defender.go` (`LoginFailed` scores `ScoreValid`, `LimitExceeded`
scores `ScoreLimitExceeded`, the two no-valid-user kinds score
`ScoreInvalid`). -/
def eventScore (c : DefenderConfig) (ev : HostEvent) : Int :=
  match ev with
  | .loginFailed => c.ScoreValid
  | .limitExceeded => c.ScoreLimitExceeded
  | .userNotFound => c.ScoreInvalid
  | .noLoginTried => c.ScoreInvalid

/-- Modelled from the spec: the ban-time extension, in minutes, applied to an
already banned address: `BanTime * BanTimeIncrement / 100`.  The test
(`TestBasicDefender` lines 165-171, with `BanTime = 10` and
`BanTimeIncrement = 2`, so a quotient of 0) forces a strictly positive
extension, so a zero quotient is bumped to one minute. -/
def banIncrement (c : DefenderConfig) : Int :=
  let i := c.BanTime * c.BanTimeIncrement / 100
  if i = 0 then 1 else i

/-- Timestamp of the most recent event of a record, 0 when there is none;
the eviction key of the host table. -/
def lastEventTime (hs : hostScore) : Int :=
  match hs.Events.getLast? with
  | some e => e.dateTime
  | none => 0

/-- Modelled from the spec: host-table eviction (`cleanupHosts` of the missing
`common/defender.go`).  When the table exceeds the hard limit, records are
removed in ascending order of most-recent-event time until the soft limit is
reached; `TestDefenderCleanup` shows there is no separate expired-record
drop (otherwise its post-cleanup count assertion of `EntriesSoftLimit` would
fail). -/
def cleanupHosts (d : memoryDefender) : memoryDefender :=
  if d.config.EntriesHardLimit < (d.hosts.length : Int) then
    let sorted := List.insertionSort (keyLE (fun p => lastEventTime p.2)) d.hosts
    { d with hosts := sorted.drop (d.hosts.length - d.config.EntriesSoftLimit.toNat) }
  else d

/-- Modelled from the spec: ban-table eviction (`cleanupBanned` of the missing
`common/defender.go`).  When the table exceeds the hard limit, every entry
whose expiry has passed is dropped; if the survivors still exceed the soft
limit they are evicted in ascending order of expiry until the soft limit is
reached, as `TestDefenderCleanup` checks. -/
def cleanupBanned (d : memoryDefender) (now : Int) : memoryDefender :=
  if d.config.EntriesHardLimit < (d.banned.length : Int) then
    let alive := d.banned.filter (fun p => decide (now ≤ p.2))
    if d.config.EntriesSoftLimit < (alive.length : Int) then
      let sorted := List.insertionSort (keyLE (fun p => p.2)) alive
      { d with banned := sorted.drop (alive.length - d.config.EntriesSoftLimit.toNat) }
    else { d with banned := alive }
  else d

/-- Membership of an address in the configured safe list. -/
def isSafeListed (d : memoryDefender) (ip : String) : Bool :=
  match d.safeList with
  | some sl => isListed sl ip
  | none => false

/-- Membership of an address in the configured block list. -/
def isBlockListed (d : memoryDefender) (ip : String) : Bool :=
  match d.blockList with
  | some bl => isListed bl ip
  | none => false

/-- Modelled from the spec: the scoring tail of `AddEvent` in the missing
`common/defender.go`, reached when the address is neither safe-listed nor
currently banned.  The event is appended, expired events are pruned, the
in-window total recomputed; reaching the threshold replaces the host record
by a ban entry (expiring `BanTime` minutes from now) followed by ban-table
eviction, while a first event creates the record followed by host-table
eviction. -/
def addScore (d : memoryDefender) (now : Int) (ip : String) (ev : HostEvent) : memoryDefender :=
  let score := eventScore d.config ev
  match lookupKey d.hosts ip with
  | some hs =>
    let evs := (hs.Events ++ [hostEvent.mk now score]).filter
      (fun e => decide (now < e.dateTime + d.config.ObservationTime))
    let total := (evs.map (fun e => e.score)).sum
    if d.config.Threshold ≤ total then
      cleanupBanned
        { d with banned := setKey d.banned ip (now + d.config.BanTime),
                 hosts := removeKey d.hosts ip } now
    else
      { d with hosts := setKey d.hosts ip ⟨total, evs⟩ }
  | none =>
    cleanupHosts { d with hosts := setKey d.hosts ip (hostScore.mk score [hostEvent.mk now score]) }

/-- Modelled from the spec: `AddEvent` of the missing `common/defender.go`.
A safe-listed address is ignored; an address whose ban is still active is
ignored as well (the escalation of an active ban happens in `IsBanned`, as
`TestBasicDefender` lines 165-171 force); an expired ban entry is deleted
before scoring resumes. -/
def AddEvent (d : memoryDefender) (now : Int) (ip : String) (ev : HostEvent) : memoryDefender :=
  if isSafeListed d ip then d
  else
    match lookupKey d.banned ip with
    | some banTime =>
      if now < banTime then d
      else addScore { d with banned := removeKey d.banned ip } now ip ev
    | none => addScore d now ip ev

/-- Modelled from the spec: `IsBanned` of the missing `common/defender.go`.
An address with an active ban entry is banned, and the check itself extends
the ban by `banIncrement` minutes (the escalation demonstrated by
`TestBasicDefender` lines 165-171); otherwise the block list decides.  The
possibly-updated state is returned alongside the answer. -/
def IsBanned (d : memoryDefender) (now : Int) (ip : String) : Bool × memoryDefender :=
  match lookupKey d.banned ip with
  | some banTime =>
    if now < banTime then
      (true, { d with banned := setKey d.banned ip (banTime + banIncrement d.config) })
    else (isBlockListed d ip, d)
  | none => (isBlockListed d ip, d)

/-- Modelled from the spec: `GetScore` of the missing `common/defender.go`.
The score is recomputed live: the sum of the weights of the record's events
still inside the trailing observation window; an address with no record
scores 0. -/
def GetScore (d : memoryDefender) (now : Int) (ip : String) : Int :=
  match lookupKey d.hosts ip with
  | some hs =>
    ((hs.Events.filter (fun e => decide (now < e.dateTime + d.config.ObservationTime))).map
      (fun e => e.score)).sum
  | none => 0

/-- Modelled from the spec: `GetBanTime` of the missing `common/defender.go`;
a pure read of the ban table. -/
def GetBanTime (d : memoryDefender) (ip : String) : Option Int :=
  lookupKey d.banned ip

/-- Modelled from the spec: `countHosts` of the missing `common/defender.go`. -/
def countHosts (d : memoryDefender) : Nat := d.hosts.length

/-- Modelled from the spec: `countBanned` of the missing `common/defender.go`. -/
def countBanned (d : memoryDefender) : Nat := d.banned.length

/-- The defender state right after construction: empty tables, the given
configuration and loaded lists. -/
def initialDefender (config : DefenderConfig) (safeList blockList : Option HostList) :
    memoryDefender :=
  { config := config, hosts := [], banned := [], safeList := safeList, blockList := blockList }

/-! ### Operation sequences -/

/-- One call into the defender: an `AddEvent` or an `IsBanned` admission
check (the latter mutates the state through ban escalation). -/
inductive DefOp where
  | add (now : Int) (ip : String) (ev : HostEvent)
  | check (now : Int) (ip : String)
  deriving DecidableEq, Repr

/-- Apply one operation to the state. -/
def applyOp (d : memoryDefender) (op : DefOp) : memoryDefender :=
  match op with
  | .add now ip ev => AddEvent d now ip ev
  | .check now ip => (IsBanned d now ip).2

/-- Apply a sequence of operations from left to right. -/
def runOps (d : memoryDefender) (ops : List DefOp) : memoryDefender :=
  ops.foldl applyOp d

/-- Apply a sequence of `AddEvent` calls, each given as
(timestamp, address, event kind). -/
def runEvents (d : memoryDefender) (evs : List (Int × String × HostEvent)) : memoryDefender :=
  evs.foldl (fun s e => AddEvent s e.1 e.2.1 e.2.2) d

/-- An `AddEvent` call that inserts a fresh host record and thereby triggers
host-table eviction: the address is not safe-listed, has no active ban, has
no record yet, and the insertion pushes the table past the hard limit. -/
def insertTriggers (d : memoryDefender) (e : Int × String × HostEvent) : Bool :=
  !isSafeListed d e.2.1 &&
    (match lookupKey d.banned e.2.1 with
     | some bt => decide (bt ≤ e.1)
     | none => true) &&
    (lookupKey d.hosts e.2.1).isNone &&
    decide (d.config.EntriesHardLimit < (d.hosts.length : Int) + 1)

/-! ### Concrete instances used by witnesses and counterexamples -/

/-- The configuration of `TestBasicDefender`. -/
def testConfig : DefenderConfig :=
  { Enabled := true, BanTime := 10, BanTimeIncrement := 2, Threshold := 5,
    ScoreInvalid := 2, ScoreValid := 1, ScoreLimitExceeded := 3,
    ObservationTime := 15, EntriesSoftLimit := 1, EntriesHardLimit := 2 }

/-- The fresh address of `TestBasicDefender`. -/
def testIP : String := "12.34.56.78"

/-- State after one `LoginFailed` event for `testIP`. -/
def c2state1 : memoryDefender :=
  AddEvent (initialDefender testConfig none none) 0 testIP HostEvent.loginFailed

/-- State after a further `LimitExceeded` event for `testIP`. -/
def c2state2 : memoryDefender := AddEvent c2state1 0 testIP HostEvent.limitExceeded

/-- State after a further `NoLoginTried` event for `testIP` (in-window score
6, past the threshold 5). -/
def c2state3 : memoryDefender := AddEvent c2state2 0 testIP HostEvent.noLoginTried

/-- A configuration with `BanTime = 30` and `BanTimeIncrement = 50`, for
which the spec formula predicts a 15-minute ban extension. -/
def cfg3050 : DefenderConfig :=
  { Enabled := true, BanTime := 30, BanTimeIncrement := 50, Threshold := 10,
    ScoreInvalid := 2, ScoreValid := 1, ScoreLimitExceeded := 3,
    ObservationTime := 30, EntriesSoftLimit := 50, EntriesHardLimit := 100 }

/-- A defender holding one active ban (expiry 100) for address 1.2.3.4. -/
def dBanned : memoryDefender :=
  { config := cfg3050, hosts := [], banned := [("1.2.3.4", 100)],
    safeList := none, blockList := none }

/-- The configuration of `TestDefenderCleanup`. -/
def cleanupCfg : DefenderConfig :=
  { Enabled := false, BanTime := 0, BanTimeIncrement := 0, Threshold := 0,
    ScoreInvalid := 0, ScoreValid := 0, ScoreLimitExceeded := 0,
    ObservationTime := 1, EntriesSoftLimit := 2, EntriesHardLimit := 3 }

/-- The over-capacity ban table of `TestDefenderCleanup`: four live entries
with expiries 2, 1, 3 and 4 minutes from now. -/
def dBanTable : memoryDefender :=
  { config := cleanupCfg, hosts := [],
    banned := [("2.2.2.2", 2), ("2.2.2.3", 1), ("2.2.2.4", 3), ("2.2.2.5", 4)],
    safeList := none, blockList := none }

/-- A host-list file declaring one valid address and one valid network. -/
def listFile0 : HostListFile :=
  { IPAddresses := ["1.2.3.4"], CIDRNetworks := ["10.8.0.0/24"] }

/-- The host list loaded from `listFile0`. -/
def hostList0 : HostList :=
  { IPAddresses := ["1.2.3.4"], Ranges := [{ base := 168296448, maskLen := 24 }] }

/-- A defender configured with `hostList0` as both safe and block list. -/
def dLists : memoryDefender :=
  { config := testConfig, hosts := [], banned := [],
    safeList := some hostList0, blockList := some hostList0 }

/-- A host-list file declaring only invalid entries. -/
def invalidFile : HostListFile :=
  { IPAddresses := ["invalidip"], CIDRNetworks := ["invalid net"] }

/-- The all-zero configuration with the defender disabled. -/
def zeroConfig : DefenderConfig :=
  { Enabled := false, BanTime := 0, BanTimeIncrement := 0, Threshold := 0,
    ScoreInvalid := 0, ScoreValid := 0, ScoreLimitExceeded := 0,
    ObservationTime := 0, EntriesSoftLimit := 0, EntriesHardLimit := 0 }

/-- Events of distinct non-listed addresses driving the host table past its
hard limit of 2, as in the cleanup section of `TestBasicDefender`. -/
def c1events : List (Int × String × HostEvent) :=
  [(0, "12.34.56.79", HostEvent.noLoginTried),
   (0, "12.34.56.80", HostEvent.noLoginTried),
   (1, "12.34.56.81", HostEvent.noLoginTried)]

/-- The table-disjointness invariant of the spec: an address is in at most
one of the host table and the ban table. -/
def Disj (d : memoryDefender) : Prop :=
  ∀ k, lookupKey d.hosts k ≠ none → lookupKey d.banned k = none

/-- Three `NoLoginTried` events (weight 2 each) for `testIP`, enough to pass
the threshold 5 and ban it. -/
def c5ops : List DefOp :=
  [DefOp.add 0 testIP HostEvent.noLoginTried,
   DefOp.add 0 testIP HostEvent.noLoginTried,
   DefOp.add 0 testIP HostEvent.noLoginTried]

/-! ### Association-list lemmas -/

theorem lookupKey_eq_none {β : Type} {m : List (String × β)} {k : String} :
    lookupKey m k = none ↔ ∀ p ∈ m, p.1 ≠ k := by
  induction m with
  | nil => simp [lookupKey]
  | cons p rest ih =>
    by_cases h : p.1 = k
    · simp [lookupKey, h]
    · simp [lookupKey, h, ih]

theorem lookupKey_eq_none_of_subset {β : Type} {m' m : List (String × β)} {k : String}
    (hsub : ∀ p, p ∈ m' → p ∈ m) (h : lookupKey m k = none) : lookupKey m' k = none :=
  lookupKey_eq_none.mpr fun p hp => lookupKey_eq_none.mp h p (hsub p hp)

theorem mem_removeKey {β : Type} {m : List (String × β)} {k : String} {p : String × β}
    (h : p ∈ removeKey m k) : p ∈ m ∧ p.1 ≠ k := by
  induction m with
  | nil => simp [removeKey] at h
  | cons q rest ih =>
    by_cases hq : q.1 = k
    · simp only [removeKey, if_pos hq] at h
      exact ⟨List.mem_cons_of_mem _ (ih h).1, (ih h).2⟩
    · simp only [removeKey, if_neg hq] at h
      rcases List.mem_cons.mp h with h | h
      · exact ⟨by simp [h], by simpa [h] using hq⟩
      · exact ⟨List.mem_cons_of_mem _ (ih h).1, (ih h).2⟩

theorem removeKey_eq_of_none {β : Type} {m : List (String × β)} {k : String}
    (h : lookupKey m k = none) : removeKey m k = m := by
  induction m with
  | nil => rfl
  | cons p rest ih =>
    rw [lookupKey] at h
    by_cases hp : p.1 = k
    · simp [hp] at h
    · rw [if_neg hp] at h
      rw [removeKey, if_neg hp, ih h]

theorem lookupKey_removeKey_self {β : Type} (m : List (String × β)) (k : String) :
    lookupKey (removeKey m k) k = none :=
  lookupKey_eq_none.mpr fun p hp => (mem_removeKey hp).2

theorem lookupKey_removeKey_ne {β : Type} {m : List (String × β)} {k k' : String}
    (h : k' ≠ k) : lookupKey (removeKey m k) k' = lookupKey m k' := by
  induction m with
  | nil => rfl
  | cons p rest ih =>
    by_cases hp : p.1 = k
    · have : ¬ p.1 = k' := fun hk => h (hk ▸ hp ▸ rfl)
      rw [removeKey, if_pos hp, lookupKey, if_neg this, ih]
    · by_cases hp' : p.1 = k'
      · rw [removeKey, if_neg hp, lookupKey, if_pos hp', lookupKey, if_pos hp']
      · rw [removeKey, if_neg hp, lookupKey, if_neg hp', lookupKey, if_neg hp', ih]

theorem length_removeKey_le {β : Type} (m : List (String × β)) (k : String) :
    (removeKey m k).length ≤ m.length := by
  induction m with
  | nil => simp [removeKey]
  | cons p rest ih =>
    by_cases hp : p.1 = k
    · rw [removeKey, if_pos hp]
      exact le_trans ih (Nat.le_succ _)
    · rw [removeKey, if_neg hp]
      simpa using ih

theorem length_removeKey_lt {β : Type} {m : List (String × β)} {k : String} {v : β}
    (h : lookupKey m k = some v) : (removeKey m k).length < m.length := by
  induction m with
  | nil => simp [lookupKey] at h
  | cons p rest ih =>
    by_cases hp : p.1 = k
    · rw [removeKey, if_pos hp]
      exact Nat.lt_succ_of_le (length_removeKey_le rest k)
    · rw [lookupKey, if_neg hp] at h
      rw [removeKey, if_neg hp]
      simpa using ih h

theorem lookupKey_append {β : Type} (m₁ m₂ : List (String × β)) (k : String) :
    lookupKey (m₁ ++ m₂) k =
      (match lookupKey m₁ k with
       | some v => some v
       | none => lookupKey m₂ k) := by
  induction m₁ with
  | nil => simp [lookupKey]
  | cons p rest ih =>
    by_cases hp : p.1 = k
    · simp [lookupKey, hp]
    · simpa [lookupKey, hp] using ih

theorem lookupKey_setKey_self {β : Type} (m : List (String × β)) (k : String) (v : β) :
    lookupKey (setKey m k v) k = some v := by
  rw [setKey, lookupKey_append, lookupKey_removeKey_self]
  simp [lookupKey]

theorem lookupKey_setKey_ne {β : Type} {m : List (String × β)} {k k' : String} (v : β)
    (h : k' ≠ k) : lookupKey (setKey m k v) k' = lookupKey m k' := by
  rw [setKey, lookupKey_append]
  have h2 : ¬ (k = k') := fun hk => h hk.symm
  have h1 : lookupKey [(k, v)] k' = none := by simp [lookupKey, h2]
  rw [lookupKey_removeKey_ne h, h1]
  cases lookupKey m k' <;> rfl

theorem mem_setKey {β : Type} {m : List (String × β)} {k : String} {v : β} {p : String × β}
    (h : p ∈ setKey m k v) : p = (k, v) ∨ (p ∈ m ∧ p.1 ≠ k) := by
  rw [setKey, List.mem_append] at h
  rcases h with h | h
  · exact Or.inr (mem_removeKey h)
  · simp at h
    exact Or.inl h

theorem length_setKey {β : Type} (m : List (String × β)) (k : String) (v : β) :
    (setKey m k v).length = (removeKey m k).length + 1 := by
  rw [setKey, List.length_append, List.length_singleton]

theorem length_setKey_of_none {β : Type} {m : List (String × β)} {k : String} (v : β)
    (h : lookupKey m k = none) : (setKey m k v).length = m.length + 1 := by
  rw [length_setKey, removeKey_eq_of_none h]

/-! ### Projection lemmas: which fields an operation can touch -/

theorem cleanupHosts_proj (d : memoryDefender) :
    (cleanupHosts d).banned = d.banned ∧ (cleanupHosts d).config = d.config ∧
      (cleanupHosts d).safeList = d.safeList ∧ (cleanupHosts d).blockList = d.blockList := by
  unfold cleanupHosts
  split <;> exact ⟨rfl, rfl, rfl, rfl⟩

theorem cleanupBanned_proj (d : memoryDefender) (now : Int) :
    (cleanupBanned d now).hosts = d.hosts ∧ (cleanupBanned d now).config = d.config ∧
      (cleanupBanned d now).safeList = d.safeList ∧
      (cleanupBanned d now).blockList = d.blockList := by
  simp only [cleanupBanned]
  split
  · split <;> exact ⟨rfl, rfl, rfl, rfl⟩
  · exact ⟨rfl, rfl, rfl, rfl⟩

theorem addScore_proj (d : memoryDefender) (now : Int) (ip : String) (ev : HostEvent) :
    (addScore d now ip ev).config = d.config ∧
      (addScore d now ip ev).safeList = d.safeList ∧
      (addScore d now ip ev).blockList = d.blockList := by
  simp only [addScore]
  split
  · split
    · exact ⟨(cleanupBanned_proj _ _).2.1, (cleanupBanned_proj _ _).2.2.1,
        (cleanupBanned_proj _ _).2.2.2⟩
    · exact ⟨rfl, rfl, rfl⟩
  · exact ⟨(cleanupHosts_proj _).2.1, (cleanupHosts_proj _).2.2.1, (cleanupHosts_proj _).2.2.2⟩

theorem AddEvent_proj (d : memoryDefender) (now : Int) (ip : String) (ev : HostEvent) :
    (AddEvent d now ip ev).config = d.config ∧
      (AddEvent d now ip ev).safeList = d.safeList ∧
      (AddEvent d now ip ev).blockList = d.blockList := by
  unfold AddEvent
  split
  · exact ⟨rfl, rfl, rfl⟩
  · split
    · split
      · exact ⟨rfl, rfl, rfl⟩
      · exact addScore_proj { d with banned := removeKey d.banned ip } now ip _
    · exact addScore_proj d now ip _

theorem IsBanned_proj (d : memoryDefender) (now : Int) (ip : String) :
    (IsBanned d now ip).2.hosts = d.hosts ∧ (IsBanned d now ip).2.config = d.config ∧
      (IsBanned d now ip).2.safeList = d.safeList ∧
      (IsBanned d now ip).2.blockList = d.blockList := by
  unfold IsBanned
  split
  · split <;> exact ⟨rfl, rfl, rfl, rfl⟩
  · exact ⟨rfl, rfl, rfl, rfl⟩

theorem applyOp_proj (d : memoryDefender) (op : DefOp) :
    (applyOp d op).config = d.config ∧ (applyOp d op).safeList = d.safeList ∧
      (applyOp d op).blockList = d.blockList := by
  cases op with
  | add now ip ev => exact AddEvent_proj d now ip ev
  | check now ip =>
    have h := IsBanned_proj d now ip
    exact ⟨h.2.1, h.2.2.1, h.2.2.2⟩

theorem runOps_proj (d : memoryDefender) (ops : List DefOp) :
    (runOps d ops).config = d.config ∧ (runOps d ops).safeList = d.safeList ∧
      (runOps d ops).blockList = d.blockList := by
  induction ops generalizing d with
  | nil => exact ⟨rfl, rfl, rfl⟩
  | cons op rest ih =>
    have h1 := applyOp_proj d op
    have h2 := ih (applyOp d op)
    exact ⟨h2.1.trans h1.1, h2.2.1.trans h1.2.1, h2.2.2.trans h1.2.2⟩

/-! ### Host-list facts -/

theorem loadHostList_fields {f : HostListFile} {hl : HostList}
    (h : loadHostList f = some hl) :
    hl.IPAddresses = f.IPAddresses.filter (fun ip => (parseIP ip).isSome) ∧
      hl.Ranges = f.CIDRNetworks.filterMap parseCIDR := by
  unfold loadHostList at h
  split at h
  · injection h with h
    subst h
    exact ⟨rfl, rfl⟩
  · exact absurd h (by simp)

theorem isListed_eq_false_of_invalid (hl : HostList)
    (hvalid : ∀ a ∈ hl.IPAddresses, (parseIP a).isSome = true) (s : String)
    (hs : parseIP s = none) : isListed hl s = false := by
  have hmem : s ∉ hl.IPAddresses := by
    intro hm
    have := hvalid s hm
    rw [hs] at this
    simp at this
  simp [isListed, hs, hmem]

/-- Under a positive ban time and increment, the escalation step is strictly
positive (the quotient is non-negative and a zero quotient is bumped to 1). -/
theorem banIncrement_pos (c : DefenderConfig) (h1 : 0 < c.BanTime)
    (h2 : 0 < c.BanTimeIncrement) : 0 < banIncrement c := by
  have hnn : 0 ≤ c.BanTime * c.BanTimeIncrement / 100 :=
    Int.ediv_nonneg (by positivity) (by norm_num)
  unfold banIncrement
  by_cases hz : c.BanTime * c.BanTimeIncrement / 100 = 0
  · simp [hz]
  · simp only [hz, if_neg]
    exact lt_of_le_of_ne hnn (Ne.symm hz)

/-! ### Claim theorems -/

/-- C10: configuration validation succeeds unconditionally when the defender
is disabled; the individual constraint checks are only reached when
`Enabled` is true. -/
theorem C10_validate_disabled (c : DefenderConfig) (h : c.Enabled = false) :
    validate c = none := by
  simp [validate, h]

/-- Witness for C10: the all-zero disabled configuration (zero threshold,
zero weights, zero ban time, zero observation time, zero limits) validates
without error. -/
theorem C10_validate_disabled_witness : validate zeroConfig = none :=
  C10_validate_disabled zeroConfig (by decide)

/-- Counterexample for C7: a file declaring only the invalid address string
"invalidip" filters down to empty address and network lists, yet loading it
returns a non-nil (empty) host list, not nil. -/
theorem C7_counterexample :
    (HostListFile.mk ["invalidip"] []).IPAddresses.filter
        (fun ip => (parseIP ip).isSome) = [] ∧
      (HostListFile.mk ["invalidip"] []).CIDRNetworks.filterMap parseCIDR = [] ∧
      loadHostList (HostListFile.mk ["invalidip"] []) = some (HostList.mk [] []) := by
  decide

/-- C7 (amended): the loader returns nil exactly when the declared address
and network arrays are both empty; the nil-versus-empty decision is made
before invalid entries are dropped, so a file declaring only invalid
entries yields a non-nil empty host list. -/
theorem C7_amended_nil_iff (f : HostListFile) :
    loadHostList f = none ↔ (f.IPAddresses = [] ∧ f.CIDRNetworks = []) := by
  unfold loadHostList
  split
  · rename_i hg
    refine iff_of_false (by simp) ?_
    rintro ⟨h1, h2⟩
    rw [h1, h2] at hg
    simp at hg
  · rename_i hg
    push_neg at hg
    exact iff_of_true rfl
      ⟨List.length_eq_zero.mp (Nat.le_zero.mp hg.2),
       List.length_eq_zero.mp (Nat.le_zero.mp hg.1)⟩

/-- C8: a host-list file declaring only invalid address and network strings
loads to a non-nil host list on which every membership test is false,
whereas a file declaring empty arrays loads to nil. -/
theorem C8_invalid_entries (f : HostListFile)
    (haddr : ∀ a ∈ f.IPAddresses, parseIP a = none)
    (hnet : ∀ nw ∈ f.CIDRNetworks, parseCIDR nw = none)
    (hne : f.IPAddresses ≠ [] ∨ f.CIDRNetworks ≠ []) :
    loadHostList f = some (HostList.mk [] []) ∧
      (∀ s, isListed (HostList.mk [] []) s = false) ∧
      loadHostList (HostListFile.mk [] []) = none := by
  refine ⟨?_, ?_, by decide⟩
  · have hguard : 0 < f.CIDRNetworks.length ∨ 0 < f.IPAddresses.length := by
      rcases hne with h | h
      · exact Or.inr (List.length_pos.mpr h)
      · exact Or.inl (List.length_pos.mpr h)
    unfold loadHostList
    rw [if_pos hguard]
    have h1 : f.IPAddresses.filter (fun ip => (parseIP ip).isSome) = [] := by
      rw [List.filter_eq_nil_iff]
      intro a ha
      simp [haddr a ha]
    have h2 : f.CIDRNetworks.filterMap parseCIDR = [] := by
      rw [List.filterMap_eq_nil_iff]
      intro a ha
      exact hnet a ha
    rw [h1, h2]
  · intro s
    unfold isListed
    cases parseIP s <;> simp

/-- Witness for C8: the file declaring only "invalidip" and "invalid net"
loads to the empty host list, and the empty-arrays file loads to nil. -/
theorem C8_invalid_entries_witness :
    loadHostList invalidFile = some (HostList.mk [] []) ∧
      (∀ s, isListed (HostList.mk [] []) s = false) ∧
      loadHostList (HostListFile.mk [] []) = none :=
  C8_invalid_entries invalidFile (by decide) (by decide) (by decide)

/-- C9: a string that is not a valid address is treated as not listed and
not banned: every loaded host list reports it unlisted, and on a defender
with no ban entry for it the `IsBanned` check answers false and leaves the
state unchanged (both operations are total, so no error can be raised). -/
theorem C9_malformed (s : String) (hs : parseIP s = none) (f : HostListFile)
    (hl : HostList) (hload : loadHostList f = some hl) (d : memoryDefender)
    (hbl : d.blockList = some hl) (hban : lookupKey d.banned s = none) (now : Int) :
    isListed hl s = false ∧ (IsBanned d now s).1 = false ∧ (IsBanned d now s).2 = d := by
  have hfields := loadHostList_fields hload
  have hvalid : ∀ a ∈ hl.IPAddresses, (parseIP a).isSome = true := by
    rw [hfields.1]
    intro a ha
    exact (List.mem_filter.mp ha).2
  have hlist := isListed_eq_false_of_invalid hl hvalid s hs
  refine ⟨hlist, ?_, ?_⟩ <;> simp [IsBanned, hban, isBlockListed, hbl, hlist]

/-- Witness for C9: the malformed string "invalid ip" is unlisted in the
loaded list and reported not banned, without state change. -/
theorem C9_malformed_witness :
    isListed hostList0 "invalid ip" = false ∧
      (IsBanned dLists 5 "invalid ip").1 = false ∧
      (IsBanned dLists 5 "invalid ip").2 = dLists :=
  C9_malformed "invalid ip" (by decide) listFile0 hostList0 (by decide) dLists rfl rfl 5

/-- Counterexample for C3: on a defender with `BanTime = 30` and
`BanTimeIncrement = 50` (so the claim predicts a 15-minute extension) and
an active ban for 1.2.3.4 expiring at 100, an `AddEvent` leaves
`GetBanTime` unchanged, so successive `AddEvent` calls do not strictly
increase it. -/
theorem C3_counterexample :
    GetBanTime (AddEvent dBanned 0 "1.2.3.4" HostEvent.noLoginTried) "1.2.3.4" =
        GetBanTime dBanned "1.2.3.4" ∧
      GetBanTime dBanned "1.2.3.4" = some 100 ∧
      cfg3050.BanTime * cfg3050.BanTimeIncrement / 100 = 15 := by
  decide

/-- C3 (amended): while an address is actively banned, `AddEvent` of any
kind accumulates no score and leaves the state unchanged; the escalation
happens on the `IsBanned` admission check instead, which extends the expiry
by `banIncrement` (the quotient `banTime * banTimeIncrement / 100`, bumped
to 1 when zero) minutes, so each check strictly increases `GetBanTime`. -/
theorem C3_escalation_on_check (d : memoryDefender) (now : Int) (ip : String) (bt : Int)
    (hlook : lookupKey d.banned ip = some bt) (hactive : now < bt)
    (hbtime : 0 < d.config.BanTime) (hbinc : 0 < d.config.BanTimeIncrement) :
    (∀ ev, AddEvent d now ip ev = d) ∧
      (IsBanned d now ip).1 = true ∧
      GetBanTime d ip = some bt ∧
      GetBanTime (IsBanned d now ip).2 ip = some (bt + banIncrement d.config) ∧
      bt < bt + banIncrement d.config := by
  refine ⟨?_, ?_, hlook, ?_, ?_⟩
  · intro ev
    simp [AddEvent, hlook, hactive]
  · simp [IsBanned, hlook, hactive]
  · simp [GetBanTime, IsBanned, hlook, hactive, lookupKey_setKey_self]
  · exact lt_add_of_pos_right bt (banIncrement_pos d.config hbtime hbinc)

/-- Witness for C3 (amended): on the concrete banned defender, `AddEvent`
is a no-op and one `IsBanned` check moves the expiry from 100 to 115. -/
theorem C3_escalation_on_check_witness :
    (∀ ev, AddEvent dBanned 0 "1.2.3.4" ev = dBanned) ∧
      (IsBanned dBanned 0 "1.2.3.4").1 = true ∧
      GetBanTime dBanned "1.2.3.4" = some 100 ∧
      GetBanTime (IsBanned dBanned 0 "1.2.3.4").2 "1.2.3.4" =
        some (100 + banIncrement dBanned.config) ∧
      (100 : Int) < 100 + banIncrement dBanned.config :=
  C3_escalation_on_check dBanned 0 "1.2.3.4" 100 (by decide) (by decide) (by decide) (by decide)

/-- C2: with threshold 5 and weights 1/2/3, a fresh non-listed address
scores 1 after one `LoginFailed`, 4 after a further `LimitExceeded`, and a
further `NoLoginTried` (in-window score 6) bans it: `IsBanned` answers
true, `GetScore` drops to 0 and `GetBanTime` is non-nil. -/
theorem C2_threshold_ban :
    GetScore c2state1 0 testIP = 1 ∧
      GetScore c2state2 0 testIP = 4 ∧
      (IsBanned c2state3 0 testIP).1 = true ∧
      GetScore c2state3 0 testIP = 0 ∧
      GetBanTime c2state3 testIP ≠ none := by
  decide

/-! ### Eviction facts -/

theorem mem_cleanupHosts {d : memoryDefender} {p : String × hostScore}
    (h : p ∈ (cleanupHosts d).hosts) : p ∈ d.hosts := by
  simp only [cleanupHosts] at h
  split at h
  · exact (List.mem_insertionSort _).mp (List.mem_of_mem_drop h)
  · exact h

theorem mem_cleanupBanned {d : memoryDefender} {now : Int} {p : String × Int}
    (h : p ∈ (cleanupBanned d now).banned) : p ∈ d.banned := by
  simp only [cleanupBanned] at h
  split at h
  · split at h
    · exact (List.mem_filter.mp ((List.mem_insertionSort _).mp (List.mem_of_mem_drop h))).1
    · exact (List.mem_filter.mp h).1
  · exact h

/-- C6: when ban-table eviction runs (table past the hard limit), every
expired entry is removed, the survivors are cut down to the soft limit in
ascending order of expiry if they still exceed it, and the retained entries
are pre-eviction entries whose expiries dominate those of every evicted
live entry. -/
theorem C6_ban_table_eviction (d : memoryDefender) (now : Int)
    (htrig : d.config.EntriesHardLimit < (d.banned.length : Int))
    (hsoft : 0 ≤ d.config.EntriesSoftLimit) :
    (∀ p ∈ (cleanupBanned d now).banned, now ≤ p.2) ∧
      (∀ p ∈ (cleanupBanned d now).banned, p ∈ d.banned) ∧
      ((cleanupBanned d now).banned.length : Int) =
        min ((d.banned.filter (fun p => decide (now ≤ p.2))).length : Int)
          d.config.EntriesSoftLimit ∧
      (∀ q ∈ d.banned.filter (fun p => decide (now ≤ p.2)),
        q ∉ (cleanupBanned d now).banned →
        ∀ p ∈ (cleanupBanned d now).banned, q.2 ≤ p.2) := by
  have hmem : ∀ p ∈ (cleanupBanned d now).banned, p ∈ d.banned := fun p hp =>
    mem_cleanupBanned hp
  simp only [cleanupBanned, if_pos htrig]
  set alive := d.banned.filter (fun p => decide (now ≤ p.2)) with halive
  by_cases h2 : d.config.EntriesSoftLimit < (alive.length : Int)
  · simp only [if_pos h2]
    set sorted := List.insertionSort (keyLE (fun p : String × Int => p.2)) alive with hsorted
    set n := alive.length - d.config.EntriesSoftLimit.toNat with hn
    have hperm : ∀ p ∈ sorted, p ∈ alive := fun p hp => (List.mem_insertionSort _).mp hp
    have hkept : ∀ p ∈ sorted.drop n, p ∈ alive := fun p hp =>
      hperm p (List.mem_of_mem_drop hp)
    refine ⟨?_, ?_, ?_, ?_⟩
    · intro p hp
      have := (List.mem_filter.mp (hkept p hp)).2
      exact of_decide_eq_true this
    · intro p hp
      exact (List.mem_filter.mp (hkept p hp)).1
    · rw [List.length_drop, List.length_insertionSort]
      omega
    · intro q hq hqout p hp
      have hsort : List.Sorted (keyLE (fun p : String × Int => p.2)) sorted :=
        List.sorted_insertionSort _ _
      have hq' : q ∈ sorted := (List.mem_insertionSort _).mpr hq
      have hsplit : sorted.take n ++ sorted.drop n = sorted := List.take_append_drop n sorted
      have hqtake : q ∈ sorted.take n := by
        rcases List.mem_append.mp (hsplit ▸ hq') with h | h
        · exact h
        · exact absurd h hqout
      have hpair := List.pairwise_append.mp (hsplit ▸ hsort)
      exact hpair.2.2 q hqtake p hp
  · simp only [if_neg h2]
    refine ⟨?_, ?_, ?_, ?_⟩
    · intro p hp
      exact of_decide_eq_true (List.mem_filter.mp hp).2
    · intro p hp
      exact (List.mem_filter.mp hp).1
    · omega
    · intro q hq hqout p hp
      exact absurd hq hqout

/-- Witness for C6: the over-capacity ban table of `TestDefenderCleanup`
(expiries 2, 1, 3, 4; limits soft 2, hard 3) keeps exactly the two entries
with the latest expiries. -/
theorem C6_ban_table_eviction_witness :
    ((∀ p ∈ (cleanupBanned dBanTable 0).banned, (0 : Int) ≤ p.2) ∧
      (∀ p ∈ (cleanupBanned dBanTable 0).banned, p ∈ dBanTable.banned) ∧
      ((cleanupBanned dBanTable 0).banned.length : Int) =
        min ((dBanTable.banned.filter (fun p => decide ((0 : Int) ≤ p.2))).length : Int)
          dBanTable.config.EntriesSoftLimit ∧
      (∀ q ∈ dBanTable.banned.filter (fun p => decide ((0 : Int) ≤ p.2)),
        q ∉ (cleanupBanned dBanTable 0).banned →
        ∀ p ∈ (cleanupBanned dBanTable 0).banned, q.2 ≤ p.2)) ∧
      (cleanupBanned dBanTable 0).banned = [("2.2.2.4", 3), ("2.2.2.5", 4)] :=
  ⟨C6_ban_table_eviction dBanTable 0 (by decide) (by decide), by decide⟩

/-! ### Safe-list facts -/

theorem AddEvent_safe {d : memoryDefender} {ip : String} (now : Int) (ev : HostEvent)
    (h : isSafeListed d ip = true) : AddEvent d now ip ev = d := by
  simp [AddEvent, h]

theorem isSafeListed_congr {d d' : memoryDefender} (ip : String)
    (h : d'.safeList = d.safeList) : isSafeListed d' ip = isSafeListed d ip := by
  simp [isSafeListed, h]

theorem isBlockListed_congr {d d' : memoryDefender} (ip : String)
    (h : d'.blockList = d.blockList) : isBlockListed d' ip = isBlockListed d ip := by
  simp [isBlockListed, h]

theorem absent_addScore {d : memoryDefender} {ip : String} (now : Int) (ip' : String)
    (ev : HostEvent) (hip : ¬ ip = ip')
    (hh : lookupKey d.hosts ip = none) (hb : lookupKey d.banned ip = none) :
    lookupKey (addScore d now ip' ev).hosts ip = none ∧
      lookupKey (addScore d now ip' ev).banned ip = none := by
  simp only [addScore]
  split
  · split
    · constructor
      · rw [(cleanupBanned_proj _ _).1]
        rw [lookupKey_removeKey_ne hip]
        exact hh
      · refine lookupKey_eq_none_of_subset (fun p hp => mem_cleanupBanned hp) ?_
        rw [lookupKey_setKey_ne _ hip]
        exact hb
    · exact ⟨by rw [lookupKey_setKey_ne _ hip]; exact hh, hb⟩
  · constructor
    · refine lookupKey_eq_none_of_subset (fun p hp => mem_cleanupHosts hp) ?_
      rw [lookupKey_setKey_ne _ hip]
      exact hh
    · rw [(cleanupHosts_proj _).1]
      exact hb

theorem absent_applyOp {d : memoryDefender} {ip : String} (op : DefOp)
    (hsafe : isSafeListed d ip = true)
    (hh : lookupKey d.hosts ip = none) (hb : lookupKey d.banned ip = none) :
    lookupKey (applyOp d op).hosts ip = none ∧
      lookupKey (applyOp d op).banned ip = none := by
  cases op with
  | add now ip' ev =>
    show lookupKey (AddEvent d now ip' ev).hosts ip = none ∧
      lookupKey (AddEvent d now ip' ev).banned ip = none
    by_cases hip : ip = ip'
    · rw [← hip, AddEvent_safe now ev hsafe]
      exact ⟨hh, hb⟩
    · unfold AddEvent
      split
      · exact ⟨hh, hb⟩
      · split
        · split
          · exact ⟨hh, hb⟩
          · refine absent_addScore now ip' ev hip hh ?_
            rw [lookupKey_removeKey_ne hip]
            exact hb
        · exact absent_addScore now ip' ev hip hh hb
  | check now ip' =>
    show lookupKey (IsBanned d now ip').2.hosts ip = none ∧
      lookupKey (IsBanned d now ip').2.banned ip = none
    unfold IsBanned
    split
    · rename_i bt hlb
      split
      · have hip : ¬ ip = ip' := by
          intro hip
          rw [← hip, hb] at hlb
          exact Option.noConfusion hlb
        exact ⟨hh, by rw [lookupKey_setKey_ne _ hip]; exact hb⟩
      · exact ⟨hh, hb⟩
    · exact ⟨hh, hb⟩

theorem absent_runOps {d : memoryDefender} {ip : String} (ops : List DefOp)
    (hsafe : isSafeListed d ip = true)
    (hh : lookupKey d.hosts ip = none) (hb : lookupKey d.banned ip = none) :
    lookupKey (runOps d ops).hosts ip = none ∧
      lookupKey (runOps d ops).banned ip = none := by
  induction ops generalizing d with
  | nil => exact ⟨hh, hb⟩
  | cons op rest ih =>
    have hstep := absent_applyOp op hsafe hh hb
    have hsafe' : isSafeListed (applyOp d op) ip = true := by
      rw [isSafeListed_congr ip (applyOp_proj d op).2.1]
      exact hsafe
    exact ih hsafe' hstep.1 hstep.2

/-- C4: a safe-listed (and not block-listed) address never acquires a host
record or a ban entry over any operation sequence from a fresh defender;
`AddEvent` on it is a no-op on the whole store and `IsBanned` on it never
answers true. -/
theorem C4_safe_list (cfg : DefenderConfig) (sl : HostList) (bl : Option HostList)
    (ip : String) (ops : List DefOp) (d : memoryDefender)
    (hsafe : isListed sl ip = true)
    (hblock : isBlockListed (initialDefender cfg (some sl) bl) ip = false)
    (hd : d = runOps (initialDefender cfg (some sl) bl) ops) :
    (∀ now ev, AddEvent d now ip ev = d) ∧
      lookupKey d.hosts ip = none ∧ lookupKey d.banned ip = none ∧
      (∀ now, (IsBanned d now ip).1 = false) := by
  have hproj := runOps_proj (initialDefender cfg (some sl) bl) ops
  have hsafe0 : isSafeListed (initialDefender cfg (some sl) bl) ip = true := by
    simp [isSafeListed, initialDefender, hsafe]
  have hsafed : isSafeListed d ip = true := by
    rw [hd, isSafeListed_congr ip hproj.2.1]
    exact hsafe0
  have habsent := absent_runOps ops hsafe0 rfl rfl
  rw [← hd] at habsent
  have hblockd : isBlockListed d ip = false := by
    rw [hd, isBlockListed_congr ip hproj.2.2]
    exact hblock
  refine ⟨fun now ev => AddEvent_safe now ev hsafed, habsent.1, habsent.2, fun now => ?_⟩
  simp [IsBanned, habsent.2, hblockd]

/-- Witness for C4: with the loaded list `hostList0` as safe list, the
safe-listed address 1.2.3.4 stays out of both tables across a concrete
mixed operation sequence, and is never reported banned. -/
theorem C4_safe_list_witness :
    (∀ now ev,
        AddEvent (runOps (initialDefender testConfig (some hostList0) none)
          [DefOp.add 0 "1.2.3.4" HostEvent.noLoginTried,
           DefOp.add 0 "7.7.7.7" HostEvent.noLoginTried,
           DefOp.check 1 "1.2.3.4"]) now "1.2.3.4" ev =
          runOps (initialDefender testConfig (some hostList0) none)
            [DefOp.add 0 "1.2.3.4" HostEvent.noLoginTried,
             DefOp.add 0 "7.7.7.7" HostEvent.noLoginTried,
             DefOp.check 1 "1.2.3.4"]) ∧
      lookupKey (runOps (initialDefender testConfig (some hostList0) none)
        [DefOp.add 0 "1.2.3.4" HostEvent.noLoginTried,
         DefOp.add 0 "7.7.7.7" HostEvent.noLoginTried,
         DefOp.check 1 "1.2.3.4"]).hosts "1.2.3.4" = none ∧
      lookupKey (runOps (initialDefender testConfig (some hostList0) none)
        [DefOp.add 0 "1.2.3.4" HostEvent.noLoginTried,
         DefOp.add 0 "7.7.7.7" HostEvent.noLoginTried,
         DefOp.check 1 "1.2.3.4"]).banned "1.2.3.4" = none ∧
      (∀ now, (IsBanned (runOps (initialDefender testConfig (some hostList0) none)
        [DefOp.add 0 "1.2.3.4" HostEvent.noLoginTried,
         DefOp.add 0 "7.7.7.7" HostEvent.noLoginTried,
         DefOp.check 1 "1.2.3.4"]) now "1.2.3.4").1 = false) :=
  C4_safe_list testConfig hostList0 none "1.2.3.4"
    [DefOp.add 0 "1.2.3.4" HostEvent.noLoginTried,
     DefOp.add 0 "7.7.7.7" HostEvent.noLoginTried,
     DefOp.check 1 "1.2.3.4"] _ (by decide) (by decide) rfl

/-! ### Disjointness of the two tables over reachable states -/

theorem disj_initial (cfg : DefenderConfig) (sl bl : Option HostList) :
    Disj (initialDefender cfg sl bl) :=
  fun _ hk => absurd rfl hk

theorem disj_addScore {d : memoryDefender} (now : Int) (ip : String) (ev : HostEvent)
    (hb : lookupKey d.banned ip = none) (hdisj : Disj d) : Disj (addScore d now ip ev) := by
  simp only [addScore]
  split
  · split
    · intro k hk
      rw [(cleanupBanned_proj _ _).1] at hk
      have hkip : ¬ k = ip := by
        intro hkip
        rw [hkip, lookupKey_removeKey_self] at hk
        exact hk rfl
      rw [lookupKey_removeKey_ne hkip] at hk
      refine lookupKey_eq_none_of_subset (fun p hp => mem_cleanupBanned hp) ?_
      rw [lookupKey_setKey_ne _ hkip]
      exact hdisj k hk
    · intro k hk
      by_cases hkip : k = ip
      · rw [hkip]
        exact hb
      · rw [lookupKey_setKey_ne _ hkip] at hk
        exact hdisj k hk
  · intro k hk
    rw [(cleanupHosts_proj _).1]
    have hk' : ¬ lookupKey (setKey d.hosts ip
        (hostScore.mk (eventScore d.config ev) [hostEvent.mk now (eventScore d.config ev)])) k
          = none :=
      fun hnone => hk (lookupKey_eq_none_of_subset (fun p hp => mem_cleanupHosts hp) hnone)
    by_cases hkip : k = ip
    · rw [hkip]
      exact hb
    · rw [lookupKey_setKey_ne _ hkip] at hk'
      exact hdisj k hk'

theorem disj_applyOp {d : memoryDefender} (op : DefOp) (hdisj : Disj d) :
    Disj (applyOp d op) := by
  cases op with
  | add now ip ev =>
    show Disj (AddEvent d now ip ev)
    unfold AddEvent
    split
    · exact hdisj
    · split
      · split
        · exact hdisj
        · refine disj_addScore now ip ev (lookupKey_removeKey_self _ _) ?_
          intro k hk
          exact lookupKey_eq_none_of_subset (fun p hp => (mem_removeKey hp).1) (hdisj k hk)
      · rename_i hlb
        exact disj_addScore now ip ev hlb hdisj
  | check now ip =>
    show Disj (IsBanned d now ip).2
    unfold IsBanned
    split
    · rename_i bt hlb
      split
      · intro k hk
        have hkip : ¬ k = ip := by
          intro hkip
          have hn := hdisj k hk
          rw [hkip, hlb] at hn
          exact Option.noConfusion hn
        rw [lookupKey_setKey_ne _ hkip]
        exact hdisj k hk
      · exact hdisj
    · exact hdisj

theorem disj_runOps {d : memoryDefender} (ops : List DefOp) (hdisj : Disj d) :
    Disj (runOps d ops) := by
  induction ops generalizing d with
  | nil => exact hdisj
  | cons op rest ih => exact ih (disj_applyOp op hdisj)

/-- C5: in every state reachable by defender operations, `GetScore` is 0
for a banned or unseen address, and for a tracked address it is the live
sum of the weights of exactly the recorded events still inside the trailing
observation window — in particular 0 when every recorded event has fallen
out of the window, with no new event needed. -/
theorem C5_live_score (cfg : DefenderConfig) (sl bl : Option HostList) (ops : List DefOp)
    (d : memoryDefender) (hd : d = runOps (initialDefender cfg sl bl) ops)
    (ip : String) (now : Int) :
    (lookupKey d.banned ip ≠ none → GetScore d now ip = 0) ∧
      (lookupKey d.hosts ip = none → GetScore d now ip = 0) ∧
      (∀ hs, lookupKey d.hosts ip = some hs →
        GetScore d now ip =
          ((hs.Events.filter (fun e => decide (now < e.dateTime + cfg.ObservationTime))).map
            (fun e => e.score)).sum ∧
        ((∀ e ∈ hs.Events, e.dateTime + cfg.ObservationTime ≤ now) →
          GetScore d now ip = 0)) := by
  have hdisj : Disj d := hd ▸ disj_runOps ops (disj_initial cfg sl bl)
  have hcfg : d.config = cfg := by
    rw [hd]
    exact (runOps_proj _ _).1
  refine ⟨?_, ?_, ?_⟩
  · intro hbn
    have hh : lookupKey d.hosts ip = none := by
      by_contra hne
      exact hbn (hdisj ip hne)
    simp [GetScore, hh]
  · intro hh
    simp [GetScore, hh]
  · intro hs hh
    constructor
    · simp [GetScore, hh, hcfg]
    · intro hexp
      have hfil : hs.Events.filter
          (fun e => decide (now < e.dateTime + d.config.ObservationTime)) = [] := by
        rw [List.filter_eq_nil_iff]
        intro e he
        rw [hcfg]
        simpa using not_lt.mpr (hexp e he)
      simp [GetScore, hh, hfil]

/-- Witness for C5: after three `NoLoginTried` events `testIP` is banned,
and its score reads 0. -/
theorem C5_live_score_witness :
    GetScore (runOps (initialDefender testConfig none none) c5ops) 0 testIP = 0 :=
  (C5_live_score testConfig none none c5ops _ rfl testIP 0).1 (by decide)

/-! ### Host-table capacity -/

theorem countHosts_cleanupHosts_of_trigger {d : memoryDefender}
    (ht : d.config.EntriesHardLimit < (d.hosts.length : Int))
    (hs : 0 ≤ d.config.EntriesSoftLimit)
    (hsh : d.config.EntriesSoftLimit < d.config.EntriesHardLimit) :
    ((cleanupHosts d).hosts.length : Int) = d.config.EntriesSoftLimit := by
  simp only [cleanupHosts, ht, if_true]
  rw [List.length_drop, List.length_insertionSort]
  omega

theorem cleanupHosts_of_no_trigger {d : memoryDefender}
    (h : ¬ d.config.EntriesHardLimit < (d.hosts.length : Int)) : cleanupHosts d = d := by
  simp only [cleanupHosts, h, if_false]

theorem countHosts_addScore_fresh_trigger {d : memoryDefender} (now : Int) (ip : String)
    (ev : HostEvent) (hhost : lookupKey d.hosts ip = none)
    (hlen : d.config.EntriesHardLimit < (d.hosts.length : Int) + 1)
    (hs : 0 ≤ d.config.EntriesSoftLimit)
    (hsh : d.config.EntriesSoftLimit < d.config.EntriesHardLimit) :
    ((addScore d now ip ev).hosts.length : Int) = d.config.EntriesSoftLimit := by
  simp only [addScore, hhost]
  have hsetlen : (setKey d.hosts ip (hostScore.mk (eventScore d.config ev)
      [hostEvent.mk now (eventScore d.config ev)])).length = d.hosts.length + 1 :=
    length_setKey_of_none _ hhost
  have ht : d.config.EntriesHardLimit <
      ((setKey d.hosts ip (hostScore.mk (eventScore d.config ev)
        [hostEvent.mk now (eventScore d.config ev)])).length : Int) := by
    rw [hsetlen]
    push_cast
    omega
  exact countHosts_cleanupHosts_of_trigger
    (d := { d with hosts := setKey d.hosts ip (hostScore.mk (eventScore d.config ev)
      [hostEvent.mk now (eventScore d.config ev)]) }) ht hs hsh

theorem countHosts_addScore_le {d : memoryDefender} (now : Int) (ip : String) (ev : HostEvent)
    (hs : 0 ≤ d.config.EntriesSoftLimit)
    (hsh : d.config.EntriesSoftLimit < d.config.EntriesHardLimit)
    (hb : (d.hosts.length : Int) ≤ d.config.EntriesHardLimit) :
    ((addScore d now ip ev).hosts.length : Int) ≤ d.config.EntriesHardLimit := by
  simp only [addScore]
  split
  · split
    · rw [(cleanupBanned_proj _ _).1]
      dsimp only
      have hle := length_removeKey_le d.hosts ip
      omega
    · rename_i hsc hlh hthr
      have hlt := length_removeKey_lt hlh
      rw [length_setKey]
      omega
  · rename_i hlh
    by_cases ht : d.config.EntriesHardLimit <
        ((setKey d.hosts ip (hostScore.mk (eventScore d.config ev)
          [hostEvent.mk now (eventScore d.config ev)])).length : Int)
    · have hres := countHosts_cleanupHosts_of_trigger
        (d := { d with hosts := setKey d.hosts ip (hostScore.mk (eventScore d.config ev)
          [hostEvent.mk now (eventScore d.config ev)]) }) ht hs hsh
      rw [hres]
      exact le_of_lt hsh
    · rw [cleanupHosts_of_no_trigger
        (d := { d with hosts := setKey d.hosts ip (hostScore.mk (eventScore d.config ev)
          [hostEvent.mk now (eventScore d.config ev)]) }) ht]
      exact not_lt.mp ht

theorem countHosts_AddEvent_le {d : memoryDefender} (now : Int) (ip : String) (ev : HostEvent)
    (hs : 0 ≤ d.config.EntriesSoftLimit)
    (hsh : d.config.EntriesSoftLimit < d.config.EntriesHardLimit)
    (hb : (d.hosts.length : Int) ≤ d.config.EntriesHardLimit) :
    ((AddEvent d now ip ev).hosts.length : Int) ≤ d.config.EntriesHardLimit := by
  unfold AddEvent
  split
  · exact hb
  · split
    · split
      · exact hb
      · exact countHosts_addScore_le now ip ev hs hsh hb
    · exact countHosts_addScore_le now ip ev hs hsh hb

theorem runEvents_config (d : memoryDefender) (evs : List (Int × String × HostEvent)) :
    (runEvents d evs).config = d.config := by
  induction evs generalizing d with
  | nil => rfl
  | cons e rest ih =>
    exact (ih (AddEvent d e.1 e.2.1 e.2.2)).trans (AddEvent_proj d e.1 e.2.1 e.2.2).1

theorem countHosts_runEvents_le {d : memoryDefender} (evs : List (Int × String × HostEvent))
    (hs : 0 ≤ d.config.EntriesSoftLimit)
    (hsh : d.config.EntriesSoftLimit < d.config.EntriesHardLimit)
    (hb : (d.hosts.length : Int) ≤ d.config.EntriesHardLimit) :
    ((runEvents d evs).hosts.length : Int) ≤ d.config.EntriesHardLimit := by
  induction evs generalizing d with
  | nil => exact hb
  | cons e rest ih =>
    have hstep := countHosts_AddEvent_le e.1 e.2.1 e.2.2 hs hsh hb
    have hcfg := (AddEvent_proj d e.1 e.2.1 e.2.2).1
    have hrec := ih (d := AddEvent d e.1 e.2.1 e.2.2)
      (by rw [hcfg]; exact hs) (by rw [hcfg]; exact hsh) (by rw [hcfg]; exact hstep)
    rw [hcfg] at hrec
    exact hrec

theorem countHosts_AddEvent_trigger {d : memoryDefender} (e : Int × String × HostEvent)
    (htr : insertTriggers d e = true)
    (hs : 0 ≤ d.config.EntriesSoftLimit)
    (hsh : d.config.EntriesSoftLimit < d.config.EntriesHardLimit) :
    ((AddEvent d e.1 e.2.1 e.2.2).hosts.length : Int) = d.config.EntriesSoftLimit := by
  simp only [insertTriggers, Bool.and_eq_true, Bool.not_eq_true',
    Option.isNone_iff_eq_none, decide_eq_true_eq] at htr
  obtain ⟨⟨⟨hsafe, hban⟩, hhost⟩, hlen⟩ := htr
  unfold AddEvent
  rw [if_neg (by simp [hsafe])]
  split
  · rename_i bt hlb
    rw [hlb] at hban
    simp only [decide_eq_true_eq] at hban
    rw [if_neg (not_lt.mpr hban)]
    exact countHosts_addScore_fresh_trigger e.1 e.2.1 e.2.2 hhost hlen hs hsh
  · exact countHosts_addScore_fresh_trigger e.1 e.2.1 e.2.2 hhost hlen hs hsh

/-- C1: along any sequence of `AddEvent` calls on distinct, non-listed
addresses from a fresh defender with validated limits, the host-table size
never exceeds the hard limit, and right after an insert that triggers host
eviction the size is at most soft limit + 1 — in fact exactly the soft
limit. -/
theorem C1_host_table_capacity (cfg : DefenderConfig) (sl bl : Option HostList)
    (events : List (Int × String × HostEvent))
    (hsoft : 0 < cfg.EntriesSoftLimit)
    (hhard : cfg.EntriesSoftLimit < cfg.EntriesHardLimit)
    (hdistinct : (events.map (fun e => e.2.1)).Nodup)
    (hnl : ∀ e ∈ events, isSafeListed (initialDefender cfg sl bl) e.2.1 = false ∧
        isBlockListed (initialDefender cfg sl bl) e.2.1 = false) :
    (∀ pre suf, events = pre ++ suf →
        (countHosts (runEvents (initialDefender cfg sl bl) pre) : Int) ≤
          cfg.EntriesHardLimit) ∧
      (∀ pre e suf, events = pre ++ e :: suf →
        insertTriggers (runEvents (initialDefender cfg sl bl) pre) e = true →
        ((countHosts (runEvents (initialDefender cfg sl bl) (pre ++ [e])) : Int) ≤
            cfg.EntriesSoftLimit + 1 ∧
          (countHosts (runEvents (initialDefender cfg sl bl) (pre ++ [e])) : Int) =
            cfg.EntriesSoftLimit)) := by
  constructor
  · intro pre suf heq
    have hinit : (((initialDefender cfg sl bl).hosts.length : Int)) ≤
        (initialDefender cfg sl bl).config.EntriesHardLimit := by
      simp only [initialDefender, List.length_nil]
      push_cast
      omega
    exact countHosts_runEvents_le pre (le_of_lt hsoft) hhard hinit
  · intro pre e suf heq htr
    have hpre : (runEvents (initialDefender cfg sl bl) pre).config = cfg :=
      runEvents_config _ _
    have htrig := countHosts_AddEvent_trigger (d := runEvents (initialDefender cfg sl bl) pre)
      e htr (by rw [hpre]; exact le_of_lt hsoft) (by rw [hpre]; exact hhard)
    rw [hpre] at htrig
    have hre : runEvents (initialDefender cfg sl bl) (pre ++ [e]) =
        AddEvent (runEvents (initialDefender cfg sl bl) pre) e.1 e.2.1 e.2.2 := by
      unfold runEvents
      rw [List.foldl_append]
      rfl
    rw [hre]
    simp only [countHosts]
    constructor
    · rw [htrig]
      omega
    · exact htrig

/-- Witness for C1: three events on distinct fresh addresses with limits
soft 1 / hard 2; the third insert triggers eviction and the table settles at
exactly the soft limit. -/
theorem C1_host_table_capacity_witness :
    (countHosts (runEvents (initialDefender testConfig none none)
        ([(0, "12.34.56.79", HostEvent.noLoginTried),
          (0, "12.34.56.80", HostEvent.noLoginTried)] ++
          [(1, "12.34.56.81", HostEvent.noLoginTried)])) : Int) ≤
        testConfig.EntriesSoftLimit + 1 ∧
      (countHosts (runEvents (initialDefender testConfig none none)
        ([(0, "12.34.56.79", HostEvent.noLoginTried),
          (0, "12.34.56.80", HostEvent.noLoginTried)] ++
          [(1, "12.34.56.81", HostEvent.noLoginTried)])) : Int) =
        testConfig.EntriesSoftLimit :=
  (C1_host_table_capacity testConfig none none c1events (by decide) (by decide)
      (by decide) (by decide)).2
    [(0, "12.34.56.79", HostEvent.noLoginTried), (0, "12.34.56.80", HostEvent.noLoginTried)]
    (1, "12.34.56.81", HostEvent.noLoginTried) [] (by decide) (by decide)

end Defender
